import Mathlib

/-
Verification of the tolgee-puller translation export/merge/consistency
pipeline (src/helpers/tolgee.ts) against its specification.

The embedding models JavaScript objects as insertion-ordered association
lists (JS object keys are unique and keep their original slot when
reassigned), JSON values as an inductive `Js` type, and fallible JS code
(thrown TypeError and thrown `Error`s) as `Option`/`Except` results.
External capabilities (HTTP transport, zip decompression, the ICU message
parser of @formatjs/icu-messageformat-parser, JSON.parse of file bytes)
are parameters of the embedded functions.
-/

/-- A JSON value as produced by `JSON.parse` (no `undefined`). Objects are
insertion-ordered association lists with unique keys. -/
inductive Js where
  | null : Js
  | bool (b : Bool) : Js
  | num (n : Int) : Js
  | str (s : String) : Js
  | arr (elems : List Js) : Js
  | obj (fields : List (String × Js)) : Js

/-- First-match lookup of a key in a JS object's field list (JS object keys
are unique, so the first match is the only one). `none` models `undefined`. -/
def aGet {α : Type} : List (String × α) → String → Option α
  | [], _ => none
  | (k, v) :: rest, key => if key = k then some v else aGet rest key

/-- JS property assignment `o[key] = v`: an existing key keeps its slot and
gets the new value; a new key is appended at the end. -/
def aSet {α : Type} : List (String × α) → String → α → List (String × α)
  | [], key, v => [(key, v)]
  | (k, w) :: rest, key, v =>
    if k = key then (k, v) :: rest else (k, w) :: aSet rest key v

/-- `Object.assign`-style fold: assign every field of `src` onto `tgt`
in order. -/
def objAssign {α : Type} (tgt : List (String × α)) (src : List (String × α)) :
    List (String × α) :=
  src.foldl (fun t kv => aSet t kv.1 kv.2) tgt

/-- JS object spread `{ ...a, ...b }`: a fresh object receives `a`'s fields
in order, then `b`'s fields (later assignments win). -/
def jsSpread2 (a b : List (String × Js)) : List (String × Js) :=
  objAssign (objAssign [] a) b

/-- The fields contributed by spreading a JS value: an object's own fields;
`null`/numbers/booleans contribute nothing. (Spreading a string would
contribute index-keyed characters; translation files are JSON objects, so
that case does not arise and is not modelled.) -/
def spreadFields : Js → List (String × Js)
  | Js.obj fs => fs
  | _ => []

/-- Spreading a possibly-`undefined` value: `{ ...undefined }` is `{}`. -/
def spreadOpt : Option Js → List (String × Js)
  | some v => spreadFields v
  | none => []

/-- JS truthiness of a value: `null`, `false`, `0` and `""` are falsy;
arrays and objects (even empty ones) are truthy. -/
def jsTruthy : Js → Bool
  | Js.null => false
  | Js.bool b => b
  | Js.num n => !(n == 0)
  | Js.str s => !(s == "")
  | Js.arr _ => true
  | Js.obj _ => true

/-- Value lookup seen through JS truthiness: the value when present and
truthy, otherwise `none`. Used to state that two flat maps are
indistinguishable to the comparison loop of the consistency check. -/
def truthyLookup (o : List (String × Js)) (key : String) : Option Js :=
  match aGet o key with
  | some v => if jsTruthy v then some v else none
  | none => none

/-- `String.prototype.split` with a single-character separator, on the
character list. -/
def splitChar (sep : Char) : List Char → List (List Char)
  | [] => [[]]
  | c :: rest =>
    let r := splitChar sep rest
    if c = sep then [] :: r
    else
      match r with
      | h :: t => (c :: h) :: t
      | [] => [[c]]

/-- JS `s.split(sep)` for a one-character separator. -/
def jsSplit (s : String) (sep : Char) : List String :=
  (splitChar sep s.data).map (fun l => String.mk l)

/-- JS `Array.prototype.join`. -/
def jsJoin (sep : String) : List String → String
  | [] => ""
  | [x] => x
  | x :: y :: rest => x ++ sep ++ jsJoin sep (y :: rest)

example : jsSplit "common/en.json" '/' = ["common", "en.json"] := by decide
example : jsSplit "" '/' = [""] := by decide
example : jsJoin "," ["en", "de"] = "en,de" := by rfl

/-- Escape one character for a JSON string literal (quotes and backslashes;
control characters do not occur in the data of interest). -/
def jsonEscapeChar (c : Char) : List Char :=
  if c = '"' then ['\\', '"']
  else if c = '\\' then ['\\', '\\']
  else [c]

/-- A JSON string literal, as `JSON.stringify` prints it. -/
def jsonQuote (s : String) : String :=
  "\"" ++ String.mk (s.data.flatMap jsonEscapeChar) ++ "\""

mutual
/-- Node count of a JSON value, used as recursion fuel for `stringifyFuel`
(it always dominates the nesting depth). -/
def jsFuel : Js → Nat
  | Js.null => 1
  | Js.bool _ => 1
  | Js.num _ => 1
  | Js.str _ => 1
  | Js.arr es => jsFuelList es + 1
  | Js.obj fs => jsFuelFields fs + 1

/-- Node count of a list of JSON values. -/
def jsFuelList : List Js → Nat
  | [] => 0
  | v :: rest => jsFuel v + jsFuelList rest

/-- Node count of a JSON object's field list. -/
def jsFuelFields : List (String × Js) → Nat
  | [] => 0
  | (_, v) :: rest => jsFuel v + jsFuelFields rest
end

/-- `JSON.stringify` with default options (no whitespace), with explicit
recursion fuel so that the definition is structural and evaluates inside
the kernel. The fuel is instantiated with `jsFuel`, which always dominates
the nesting depth. -/
def stringifyFuel : Nat → Js → String
  | 0, _ => ""
  | _ + 1, Js.null => "null"
  | _ + 1, Js.bool true => "true"
  | _ + 1, Js.bool false => "false"
  | _ + 1, Js.num n => toString n
  | _ + 1, Js.str s => jsonQuote s
  | fuel + 1, Js.arr es =>
    "[" ++ jsJoin "," (es.map (stringifyFuel fuel)) ++ "]"
  | fuel + 1, Js.obj fs =>
    "\x7b" ++
      jsJoin "," (fs.map (fun kv => jsonQuote kv.1 ++ ":" ++ stringifyFuel fuel kv.2)) ++
      "\x7d"

/-- `JSON.stringify(v)` (default options). -/
def stringify (v : Js) : String :=
  stringifyFuel (jsFuel v) v

/-- Whether the pattern (first argument) occurs at the start of the text. -/
def startsWithChars : List Char → List Char → Bool
  | [], _ => true
  | _ :: _, [] => false
  | p :: ps, c :: cs => p = c && startsWithChars ps cs

/-- Whether the pattern occurs anywhere in the text. -/
def hasSubChars (pat : List Char) : List Char → Bool
  | [] => pat.isEmpty
  | c :: cs => startsWithChars pat (c :: cs) || hasSubChars pat cs

/-- Substring test: does `s` contain `pat`? -/
def strHas (s pat : String) : Bool :=
  hasSubChars pat.data s.data

example : stringify (Js.obj [("tag", Js.str "en")]) = "\x7b\"tag\":\"en\"\x7d" := by
  have h : jsFuel (Js.obj [("tag", Js.str "en")]) = 2 := by
    simp [jsFuel, jsFuelFields]
  rw [stringify, h]
  rfl
example : strHas "abcd" "bc" = true := by rfl
example : strHas "abcd" "xx" = false := by rfl

/-- A virtual file produced by decompressing the export archive.
`data` is the file's content after `JSON.parse(data.toString())`; raw bytes
and JSON parsing are external capabilities, so files carry parsed JSON. -/
structure DFile where
  path : String
  data : Js

/-- `!!defaultNamespace && defaultNamespace.length > 0` from
`mergeTranslations`: a present, non-empty default namespace. -/
def isValidDefaultNamespaceB : Option String → Bool
  | none => false
  | some s => !(s == "") && decide (0 < s.length)

/-- One iteration of the `files.forEach` body of `mergeTranslations`.
`none` models a thrown TypeError:
* a path without `/` leaves `filename` undefined and
  `filename.split('.')` throws;
* in the non-default-namespace branch, `resources[language][namespace] = …`
  throws when `resources[language]` is undefined (unknown language) or a
  primitive (strict-mode assignment on a primitive). -/
def mergeFile (defaultNamespace : Option String) (isValidDefaultNamespace : Bool)
    (resources : List (String × Js)) (f : DFile) : Option (List (String × Js)) :=
  match jsSplit f.path '/' with
  | [] => none
  | [_] => none
  | nsPart :: fnPart :: _ =>
    let language := (jsSplit fnPart '.').headD ""
    let newMessages := f.data
    if isValidDefaultNamespace = true ∧ defaultNamespace = some nsPart then
      -- resources[language] = { ...resources[language], ...newMessages };
      some (aSet resources language
        (Js.obj (jsSpread2 (spreadOpt (aGet resources language)) (spreadFields newMessages))))
    else
      -- resources[language][namespace] = newMessages;
      match aGet resources language with
      | some (Js.obj o) => some (aSet resources language (Js.obj (aSet o nsPart newMessages)))
      | some _ => none
      | none => none

/-- `mergeTranslations(languages, files, defaultNamespace)`: seed one empty
object per requested language (via object spread with a computed key), then
fold every file into the tree. `none` models a thrown TypeError. -/
def mergeTranslations (languages : List String) (files : List DFile)
    (defaultNamespace : Option String) : Option (List (String × Js)) :=
  let resources := languages.foldl (fun preVal value => jsSpread2 preVal [(value, Js.obj [])]) []
  let isValid := isValidDefaultNamespaceB defaultNamespace
  files.foldlM (fun res f => mergeFile defaultNamespace isValid res f) resources

example :
    mergeTranslations ["en"] [⟨"common/en.json", Js.obj [("hello", Js.str "hi")]⟩]
      (some "common") = some [("en", Js.obj [("hello", Js.str "hi")])] := by rfl
example :
    mergeTranslations ["en"] [⟨"messages/en.json", Js.obj [("x", Js.str "y")]⟩]
      (some "common") = some [("en", Js.obj [("messages", Js.obj [("x", Js.str "y")])])] := by
  rfl
example :
    mergeTranslations ["en"] [⟨"messages/de.json", Js.obj [("x", Js.str "y")]⟩]
      (some "common") = none := by rfl
example :
    mergeTranslations ["en"] [⟨"common/de.json", Js.obj [("x", Js.str "y")]⟩]
      (some "common") = some [("en", Js.obj []), ("de", Js.obj [("x", Js.str "y")])] := by rfl

/-- A node of the AST returned by the external ICU message parser.
`type` is the parser's `TYPE` enum (`0` = literal); `value` is the node's
`value` field when the node has one (the argument name for non-literal
nodes, the text for literal nodes). -/
structure IcuNode where
  type : Nat
  value : Option String

/-- An argument passed to the logger besides the message string. -/
inductive LogArg where
  | js (v : Js)
  | outliers (o : List (String × List String))
  | errStr (e : String)

/-- One console log emission of the tool (`logInfo` / `logError`). -/
inductive LogEntry where
  | info (msg : String) (args : List LogArg)
  | error (msg : String) (args : List LogArg)

/-- `extractVariableNames(message)`: run the external ICU parser (the
`parse` capability) on the message; collect the `value` of every
non-literal node; a thrown parse error is caught, logged (three `logError`
calls) and yields the names collected so far — the parser returns its whole
AST or throws, so a failure yields the empty list. Returns the collected
names together with the emitted log entries. -/
def extractVariableNames (parse : Js → Except String (List IcuNode)) (message : Js) :
    List String × List LogEntry :=
  match parse message with
  | Except.ok nodes =>
    (nodes.foldl (fun names node =>
      if node.type ≠ 0 then
        match node.value with
        | some v => names ++ [v]
        | none => names
      else names) [], [])
  | Except.error e =>
    ([], [LogEntry.error "Caught an error while trying to parse an ICU message." [],
          LogEntry.error "Message:" [LogArg.js message],
          LogEntry.error "Error:" [LogArg.errStr e]])

/-- The variable names extracted from a message (the first component of
`extractVariableNames`, which is what the consistency check consumes). -/
def extractNames (parse : Js → Except String (List IcuNode)) : Js → List String :=
  fun message => (extractVariableNames parse message).1

/-- A simple instance of the ICU-parser capability, modelling the external
@formatjs parser on the fragment the examples use: plain literal text and
simple `\x7bname\x7d` arguments. An unmatched brace is a parse error, and a
non-string message (the parser is called on whatever leaf value the flattened
tree holds) is a parse error. Structural recursion on fuel so that concrete
inputs evaluate in the kernel; each step consumes at least one character, so
`length + 1` fuel suffices. -/
def scanIcu : Nat → List Char → Except String (List IcuNode)
  | 0, _ => Except.error "out of fuel"
  | _ + 1, [] => Except.ok []
  | fuel + 1, '{' :: rest =>
    let name := rest.takeWhile (fun c => c ≠ '}' && c ≠ '{')
    match rest.dropWhile (fun c => c ≠ '}' && c ≠ '{') with
    | '}' :: rest2 => do
      let nodes ← scanIcu fuel rest2
      pure (IcuNode.mk 1 (some (String.mk name)) :: nodes)
    | _ => Except.error "Malformed argument."
  | fuel + 1, c :: rest => do
    let lit := (c :: rest).takeWhile (fun ch => ch ≠ '{')
    let nodes ← scanIcu fuel ((c :: rest).dropWhile (fun ch => ch ≠ '{'))
    pure (IcuNode.mk 0 (some (String.mk lit)) :: nodes)

/-- The simple ICU-parser capability on a message value. -/
def parseSimple : Js → Except String (List IcuNode)
  | Js.str s => scanIcu (s.data.length + 1) s.data
  | _ => Except.error "Cannot parse a non-string message."

/-- Variable extraction instantiated with the simple parser capability. -/
def extractSimpleNames : Js → List String :=
  extractNames parseSimple

example : extractSimpleNames (Js.str "Hello {name}") = ["name"] := by rfl
example : extractSimpleNames (Js.str "Hallo") = [] := by rfl
example : extractSimpleNames (Js.str "") = [] := by rfl
example : parseSimple (Js.str "Hello \x7bname") = Except.error "Malformed argument." := by rfl

/-- One recursion step of `dot.dot` (the dot-object flattening used on each
language's subtree): iterate the fields in order; a value that is a
non-empty object is recursed into with the dot-joined path, anything else
is assigned to the target object at the joined path. Structural on fuel;
`dotFlatten` instantiates the fuel with the node count, which dominates the
nesting depth. (dot-object also recurses into non-empty arrays using
bracket-indexed keys; translation files hold only nested string objects, so
arrays are kept as leaves here.) -/
def dotAux : Nat → String → List (String × Js) → List (String × Js) → List (String × Js)
  | 0, _, _, tgt => tgt
  | fuel + 1, path, fields, tgt =>
    fields.foldl (fun tgt kv =>
      let key := if path = "" then kv.1 else path ++ "." ++ kv.1
      match kv.2 with
      | Js.obj (f :: fs) => dotAux fuel key (f :: fs) tgt
      | v => aSet tgt key v) tgt

/-- `dot.dot(value)`: flatten a nested message object into a flat object
keyed by dot-joined paths. A non-object value has no own enumerable keys
and flattens to the empty object (`dot.dot` of `undefined`/`null`, which
throws, is handled by the caller). -/
def dotFlatten : Js → List (String × Js)
  | Js.obj fields => dotAux (jsFuelFields fields + 1) "" fields []
  | _ => []

example :
    dotFlatten (Js.obj [("a", Js.obj [("b", Js.str "x")]), ("c", Js.str "y")]) =
      [("a.b", Js.str "x"), ("c", Js.str "y")] := by rfl

/-- The flat per-language view `flatResources` used by the consistency
check: language ↦ `dot.dot(resources[language])`. -/
def flatOfFn (resources : List (String × Js)) : String → List (String × Js) :=
  fun language => dotFlatten ((aGet resources language).getD Js.null)

/-- The outliers accumulator: fully-qualified flattened key ↦ variable
names recorded for it, in discovery order. -/
abbrev OutliersL := List (String × List String)

/-- Record one outlier variable for a key:
`if (!outliers[key]) outliers[key] = []` followed by
`if (!outliers[key].includes(variable)) outliers[key].push(variable)`. -/
def addOutlier (outliers : OutliersL) (key vName : String) : OutliersL :=
  match aGet outliers key with
  | none => aSet outliers key [vName]
  | some vs => if vName ∈ vs then outliers else aSet outliers key (vs ++ [vName])

/-- The inner `for (const variable of variables)` loop: record every
variable of the first language's message that the comparison language's
variable set misses. -/
def recordOutliers (key : String) (compareVariables : List String) :
    List String → OutliersL → OutliersL
  | [], acc => acc
  | vName :: rest, acc =>
    recordOutliers key compareVariables rest
      (if vName ∈ compareVariables then acc else addOutlier acc key vName)

/-- The `for (const compareLanguage of languages)` loop: a falsy value at
the key (absent, or e.g. the empty string) is skipped as untranslated;
otherwise the comparison language's variables are extracted and the misses
recorded. -/
def compareLanguages (extract : Js → List String) (flatOf : String → List (String × Js))
    (key : String) (vars : List String) :
    List String → OutliersL → OutliersL
  | [], acc => acc
  | compareLanguage :: rest, acc =>
    match aGet (flatOf compareLanguage) key with
    | some cv =>
      if jsTruthy cv then
        compareLanguages extract flatOf key vars rest
          (recordOutliers key (extract cv) vars acc)
      else
        compareLanguages extract flatOf key vars rest acc
    | none => compareLanguages extract flatOf key vars rest acc

/-- The `for (const [key, value] of Object.entries(flatResources[language]))`
loop. -/
def entriesLoop (extract : Js → List String) (flatOf : String → List (String × Js))
    (languages : List String) :
    List (String × Js) → OutliersL → OutliersL
  | [], acc => acc
  | (key, value) :: rest, acc =>
    entriesLoop extract flatOf languages rest
      (compareLanguages extract flatOf key (extract value) languages acc)

/-- The outer `for (const language of languages)` loop. -/
def languagesLoop (extract : Js → List String) (flatOf : String → List (String × Js))
    (allLanguages : List String) :
    List String → OutliersL → OutliersL
  | [], acc => acc
  | language :: rest, acc =>
    languagesLoop extract flatOf allLanguages rest
      (entriesLoop extract flatOf allLanguages (flatOf language) acc)

/-- The whole outlier accumulation of `detectInconsistentVariableNames`,
over the flattened per-language maps. -/
def detectLoop (extract : Js → List String) (languages : List String)
    (flatOf : String → List (String × Js)) : OutliersL :=
  languagesLoop extract flatOf languages languages []

/-- What `detectInconsistentVariableNames` produces for its caller: its JS
return value (`ret`, which is `undefined`, modelled `none`) and the summary
it logs. (The `logError` diagnostics emitted inside `extractVariableNames`
go to the console directly and are modelled as that function's second
component.) -/
structure DetectResult where
  ret : Option OutliersL
  log : List LogEntry

/-- `detectInconsistentVariableNames(languages, resources)`. `none` models
the TypeError thrown by `dot.dot(resources[language])` when a requested
language is absent from the tree (`undefined`) or maps to `null`; otherwise
the outliers are accumulated and, when any key has outliers, a single
`logInfo` summary carrying the count of affected keys and the outlier map
is emitted. The function has no `return` statement: its value is
`undefined`. -/
def detectInconsistentVariableNames (parse : Js → Except String (List IcuNode))
    (languages : List String) (resources : List (String × Js)) : Option DetectResult :=
  if languages.all (fun l =>
      match aGet resources l with
      | none => false
      | some Js.null => false
      | some _ => true) then
    let outliers := detectLoop (extractNames parse) languages (flatOfFn resources)
    some { ret := none,
           log :=
             if outliers.length = 0 then []
             else [LogEntry.info
               ("Found " ++ toString outliers.length ++
                 " keys that have outlier variables in one or more languages:")
               [LogArg.outliers outliers]] }
  else none

example :
    detectLoop extractSimpleNames ["en", "de"]
      (fun l => if l = "en" then [("greet", Js.str "Hello {name}")]
                else if l = "de" then [("greet", Js.str "Hallo")] else []) =
      [("greet", ["name"])] := by rfl
example :
    detectLoop extractSimpleNames ["en", "de"]
      (fun l => if l = "en" then [("greet", Js.str "Hello {name}")] else []) = [] := by rfl

/-- A JavaScript exception: a deliberately thrown `Error` with its message,
or a TypeError raised by the runtime. -/
inductive JsError where
  | thrown (msg : String)
  | typeError

/-- Property lookup on a JS value: the field of an object, `none`
(undefined) otherwise. -/
def jsPropOpt : Js → String → Option Js
  | Js.obj fs, key => aGet fs key
  | _, _ => none

/-- `({ tag }) => tag` applied to one element of the server's language
array: destructuring from `null` throws a TypeError; property access on an
object yields its `tag` field; on any other value it yields `undefined`. -/
def tagOfElem : Js → Except JsError (Option Js)
  | Js.null => Except.error JsError.typeError
  | Js.obj fs => Except.ok (aGet fs "tag")
  | _ => Except.ok none

/-- `tolgeeLanguageTags.includes(language)` with `===` semantics: only a
string element equal to the requested tag matches (an `undefined` tag or a
non-string element never equals a string). -/
def tagsInclude (tags : List (Option Js)) (language : String) : Bool :=
  tags.any (fun t =>
    match t with
    | some (Js.str s) => s == language
    | _ => false)

/-- `validateLanguages(languages, …)` applied to the already-fetched and
JSON-parsed catalogue response `data` (the HTTP call and `result.json()`
are the transport capability; their failures are handled by the pipeline).
Shape probing: `data` must be an object with an `_embedded` object that has
a `languages` array; each element's `tag` is extracted; if every requested
language is included the function returns, otherwise it throws an `Error`
whose message appends `JSON.stringify(data)` — the server catalogue, not
the offending requested tags. A malformed shape throws the
"Failed retrieving languages." `Error`. -/
def validateLanguages (languages : List String) (data : Js) : Except JsError Unit :=
  match jsPropOpt data "_embedded" with
  | some emb =>
    match jsPropOpt emb "languages" with
    | some (Js.arr tolgeeLanguages) =>
      match tolgeeLanguages.mapM tagOfElem with
      | Except.error e => Except.error e
      | Except.ok tolgeeLanguageTags =>
        if languages.all (fun language => tagsInclude tolgeeLanguageTags language) then
          Except.ok ()
        else
          Except.error (JsError.thrown
            ("Failed trying to fetch non-existing language. " ++ stringify data))
    | some _ =>
      Except.error (JsError.thrown ("Failed retrieving languages. " ++ stringify data))
    | none =>
      Except.error (JsError.thrown ("Failed retrieving languages. " ++ stringify data))
  | none =>
    Except.error (JsError.thrown ("Failed retrieving languages. " ++ stringify data))

/-- `parseMultiValueFilter(filter, values)`:
`` `${filter}=${values.join(`&${filter}=`)}` ``. -/
def parseMultiValueFilter (filter : String) (values : List String) : String :=
  filter ++ "=" ++ jsJoin ("&" ++ filter ++ "=") values

/-- `parseLanguages(languages)`: `null` for an empty list, otherwise the
comma-joined single `languages=` parameter. -/
def parseLanguages (languages : List String) : Option String :=
  match languages with
  | [] => none
  | _ => some ("languages=" ++ jsJoin "," languages)

/-- `parseQueryParams(languages, namespaces)`: keep the present parts
(`.filter(isPresent)`), then concatenate them onto `"?"` separated by `&`
(the `forEach` with an index test). -/
def parseQueryParams (languages : List String) (namespaces : List String) : String :=
  let values := [parseLanguages languages,
                 some (parseMultiValueFilter "filterNamespace" namespaces)].filterMap id
  (values.foldl (fun (acc : String × Nat) value =>
    (acc.1 ++ (if acc.2 > 0 then "&" else "") ++ value, acc.2 + 1)) ("?", 0)).1

example :
    parseQueryParams ["en", "de"] ["a", "b"] =
      "?languages=en,de&filterNamespace=a&filterNamespace=b" := by rfl
example : parseQueryParams [] ["a"] = "?filterNamespace=a" := by rfl

/-- An externally observable effect of one pipeline run. -/
inductive Effect where
  | fetchLanguages
  | fetchExport
  | write (resources : List (String × Js))

/-- `generateTolgeeTranslations(options)` as a sequential pipeline over its
transport capabilities: `langFetch` is the result of the catalogue request
(plus `result.json()`), `exportFetch` the result of the export request plus
decompression, `parse` the ICU parser capability. Returns the run's result
together with the ordered trace of external effects; the artifact write
records the full resource tree handed to `writeResourceFile`
(`JSON.stringify(resources)` and templating happen inside the writer). -/
def generateTolgeeTranslations (langFetch : Except String Js)
    (exportFetch : Except String (List DFile))
    (parse : Js → Except String (List IcuNode))
    (languages : List String) (defaultNamespace : Option String) :
    Except JsError Unit × List Effect :=
  match langFetch with
  | Except.error e => (Except.error (JsError.thrown e), [Effect.fetchLanguages])
  | Except.ok data =>
    match validateLanguages languages data with
    | Except.error err => (Except.error err, [Effect.fetchLanguages])
    | Except.ok _ =>
      match exportFetch with
      | Except.error e =>
        (Except.error (JsError.thrown e), [Effect.fetchLanguages, Effect.fetchExport])
      | Except.ok files =>
        match mergeTranslations languages files defaultNamespace with
        | none => (Except.error JsError.typeError, [Effect.fetchLanguages, Effect.fetchExport])
        | some resources =>
          match detectInconsistentVariableNames parse languages resources with
          | none =>
            (Except.error JsError.typeError, [Effect.fetchLanguages, Effect.fetchExport])
          | some _ =>
            (Except.ok (), [Effect.fetchLanguages, Effect.fetchExport, Effect.write resources])

/-- Left-biased choice on options (`a` wins when present). -/
def orO {α : Type} : Option α → Option α → Option α
  | some x, _ => some x
  | none, b => b

/-- Last-match lookup: the value of the last occurrence of a key in an
association list (what a fold of assignments makes the key end up with). -/
def lookupLast {α : Type} : List (String × α) → String → Option α
  | [], _ => none
  | (k, v) :: rest, key => orO (lookupLast rest key) (if key = k then some v else none)

/-- Remove every binding of a key from an association list (a JS object has
at most one, so this is plain key removal). -/
def eraseKeyAll {α : Type} (l : List (String × α)) (key : String) : List (String × α) :=
  l.filter (fun kv => kv.1 ≠ key)

/-- A variable is recorded in the outliers accumulator under a key. -/
def memO (acc : OutliersL) (key vName : String) : Prop :=
  ∃ vs, aGet acc key = some vs ∧ vName ∈ vs

/-- Flat per-language maps of the consistency-detection example: `en` has
`greet` = "Hello \x7bname\x7d", `de` has `greet` = "Hallo". -/
def exC3flat : String → List (String × Js) := fun l =>
  if l = "en" then [("greet", Js.str "Hello {name}")]
  else if l = "de" then [("greet", Js.str "Hallo")] else []

/-- Same example with `de` missing the `greet` key entirely. -/
def exC3flatMissing : String → List (String × Js) := fun l =>
  if l = "en" then [("greet", Js.str "Hello {name}")] else []

/-- Resource tree of the outlier example: `en.greet` = "Hello \x7bname\x7d",
`de.greet` = "Hallo". -/
def exC4res : List (String × Js) :=
  [("en", Js.obj [("greet", Js.str "Hello {name}")]),
   ("de", Js.obj [("greet", Js.str "Hallo")])]

/-- Server language catalogue with known tags `en` and `de`, in the shape
`validateLanguages` probes for. -/
def exC6data : Js :=
  Js.obj [("_embedded", Js.obj [("languages",
    Js.arr [Js.obj [("tag", Js.str "en")], Js.obj [("tag", Js.str "de")]])])]

/-- Flat maps where the comparison language `de` has the empty string at
the shared key. -/
def exC10flat : String → List (String × Js) := fun l =>
  if l = "en" then [("greet", Js.str "Hello {name}")]
  else if l = "de" then [("greet", Js.str "")] else []

/-- The message of the `Error` thrown when `exC6data` is the catalogue and
a requested language is unknown: the fixed text followed by
`JSON.stringify` of the whole server response. -/
def exC6msg : String :=
  "Failed trying to fetch non-existing language. \x7b\"_embedded\":\x7b\"languages\":[\x7b\"tag\":\"en\"\x7d,\x7b\"tag\":\"de\"\x7d]\x7d\x7d"

theorem orO_none {α : Type} (a : Option α) : orO a none = a := by
  cases a <;> rfl

theorem aGet_aSet {α : Type} (l : List (String × α)) (k : String) (v : α) (k' : String) :
    aGet (aSet l k v) k' = if k' = k then some v else aGet l k' := by
  induction l with
  | nil => simp [aSet, aGet]
  | cons p rest ih =>
    obtain ⟨k0, w⟩ := p
    simp only [aSet]
    by_cases h0 : k0 = k
    · subst h0
      simp only [if_pos rfl, aGet]
      by_cases h1 : k' = k0 <;> simp [h1]
    · rw [if_neg h0]
      simp only [aGet]
      by_cases h1 : k' = k0
      · subst h1
        rw [if_pos rfl, if_pos rfl, if_neg h0]
      · rw [if_neg h1, if_neg h1, ih]

theorem aGet_objAssign {α : Type} (src : List (String × α)) (tgt : List (String × α))
    (k : String) :
    aGet (objAssign tgt src) k = orO (lookupLast src k) (aGet tgt k) := by
  induction src generalizing tgt with
  | nil => simp [objAssign, lookupLast, orO, List.foldl]
  | cons p rest ih =>
    obtain ⟨k0, v0⟩ := p
    show aGet (objAssign (aSet tgt k0 v0) rest) k = _
    rw [ih, aGet_aSet]
    simp only [lookupLast]
    cases h : lookupLast rest k <;> by_cases hk : k = k0 <;> simp [orO, hk]

theorem lookupLast_eq_none {α : Type} (l : List (String × α)) (k : String)
    (h : k ∉ l.map Prod.fst) : lookupLast l k = none := by
  induction l with
  | nil => rfl
  | cons p rest ih =>
    obtain ⟨k0, v0⟩ := p
    simp only [List.map, List.mem_cons] at h
    push_neg at h
    simp only [lookupLast, ih h.2, if_neg h.1, orO]

theorem lookupLast_eq_aGet {α : Type} (l : List (String × α)) (k : String)
    (h : (l.map Prod.fst).Nodup) : lookupLast l k = aGet l k := by
  induction l with
  | nil => rfl
  | cons p rest ih =>
    obtain ⟨k0, v0⟩ := p
    simp only [List.map, List.nodup_cons] at h
    simp only [lookupLast, aGet]
    by_cases hk : k = k0
    · subst hk
      rw [lookupLast_eq_none rest k h.1]
      simp [orO]
    · rw [if_neg hk, if_neg hk, orO_none, ih h.2]

theorem aGet_mem {α : Type} (l : List (String × α)) (k : String) (v : α)
    (h : aGet l k = some v) : (k, v) ∈ l := by
  induction l with
  | nil => simp [aGet] at h
  | cons p rest ih =>
    obtain ⟨k0, v0⟩ := p
    simp only [aGet] at h
    by_cases hk : k = k0
    · subst hk
      rw [if_pos rfl] at h
      cases h
      exact List.mem_cons_self _ _
    · rw [if_neg hk] at h
      exact List.mem_cons_of_mem _ (ih h)

theorem aSet_mem {α : Type} (l : List (String × α)) (k : String) (v : α)
    (p : String × α) (h : p ∈ aSet l k v) : p ∈ l ∨ p = (k, v) := by
  induction l with
  | nil =>
    simp [aSet] at h
    right
    simp [h]
  | cons q rest ih =>
    obtain ⟨k0, v0⟩ := q
    simp only [aSet] at h
    by_cases hk : k0 = k
    · rw [if_pos hk] at h
      subst hk
      rcases List.mem_cons.mp h with h1 | h1
      · right; simp [h1]
      · left; exact List.mem_cons_of_mem _ h1
    · rw [if_neg hk] at h
      rcases List.mem_cons.mp h with h1 | h1
      · left; simp [h1]
      · rcases ih h1 with h2 | h2
        · left; exact List.mem_cons_of_mem _ h2
        · right; exact h2

theorem aGet_jsSpread2 (a b : List (String × Js)) (k : String) :
    aGet (jsSpread2 a b) k = orO (lookupLast b k) (lookupLast a k) := by
  unfold jsSpread2
  rw [aGet_objAssign, aGet_objAssign]
  simp [aGet, orO_none]

theorem aGet_jsSpread2_nodup (a b : List (String × Js)) (k : String)
    (ha : (a.map Prod.fst).Nodup) (hb : (b.map Prod.fst).Nodup) :
    aGet (jsSpread2 a b) k = orO (aGet b k) (aGet a k) := by
  rw [aGet_jsSpread2, lookupLast_eq_aGet a k ha, lookupLast_eq_aGet b k hb]

theorem aGet_eraseKeyAll {α : Type} (l : List (String × α)) (key k : String) :
    aGet (eraseKeyAll l key) k = if k = key then none else aGet l k := by
  induction l with
  | nil => simp [eraseKeyAll, aGet]
  | cons p rest ih =>
    obtain ⟨k0, v0⟩ := p
    by_cases h0 : k0 = key
    · subst h0
      have hdrop : eraseKeyAll ((k0, v0) :: rest) k0 = eraseKeyAll rest k0 := by
        simp [eraseKeyAll]
      rw [hdrop, ih]
      by_cases hk : k = k0
      · simp [hk]
      · simp [aGet, hk]
    · have hkeep : eraseKeyAll ((k0, v0) :: rest) key = (k0, v0) :: eraseKeyAll rest key := by
        simp [eraseKeyAll, h0]
      rw [hkeep]
      by_cases hk : k = k0
      · have hnk : ¬k = key := by
          rw [hk]; exact h0
        simp [aGet, hk, hnk]
        exact h0
      · simp only [aGet, if_neg hk, ih]

theorem memO_nil (key vName : String) : ¬ memO [] key vName := by
  rintro ⟨vs, hget, _⟩
  simp [aGet] at hget

theorem addOutlier_memO (acc : OutliersL) (k v k' v' : String) :
    memO (addOutlier acc k v) k' v' ↔ memO acc k' v' ∨ (k' = k ∧ v' = v) := by
  cases h : aGet acc k with
  | none =>
    simp only [addOutlier, h]
    constructor
    · rintro ⟨vs, hget, hmem⟩
      rw [aGet_aSet] at hget
      by_cases hk : k' = k
      · rw [if_pos hk] at hget
        cases hget
        simp at hmem
        right
        exact ⟨hk, hmem⟩
      · rw [if_neg hk] at hget
        left
        exact ⟨vs, hget, hmem⟩
    · rintro (⟨vs, hget, hmem⟩ | ⟨hk, hv⟩)
      · refine ⟨vs, ?_, hmem⟩
        rw [aGet_aSet]
        by_cases hk : k' = k
        · rw [hk] at hget
          rw [h] at hget
          cases hget
        · rw [if_neg hk]
          exact hget
      · refine ⟨[v], ?_, ?_⟩
        · rw [hk, aGet_aSet, if_pos rfl]
        · rw [hv]
          simp
  | some vs =>
    simp only [addOutlier, h]
    by_cases hv : v ∈ vs
    · rw [if_pos hv]
      constructor
      · exact Or.inl
      · rintro (hm | ⟨hk, hveq⟩)
        · exact hm
        · subst hk
          subst hveq
          exact ⟨vs, h, hv⟩
    · rw [if_neg hv]
      constructor
      · rintro ⟨ws, hget, hmem⟩
        rw [aGet_aSet] at hget
        by_cases hk : k' = k
        · rw [if_pos hk] at hget
          cases hget
          rcases List.mem_append.mp hmem with h1 | h1
          · left
            rw [hk]
            exact ⟨vs, h, h1⟩
          · right
            exact ⟨hk, by simpa using h1⟩
        · rw [if_neg hk] at hget
          left
          exact ⟨ws, hget, hmem⟩
      · rintro (⟨ws, hget, hmem⟩ | ⟨hk, hveq⟩)
        · refine ⟨if k' = k then vs ++ [v] else ws, ?_, ?_⟩
          · rw [aGet_aSet]
            by_cases hk : k' = k <;> simp [hk, hget]
          · by_cases hk : k' = k
            · rw [if_pos hk]
              rw [hk] at hget
              rw [h] at hget
              cases hget
              exact List.mem_append_left _ hmem
            · rw [if_neg hk]
              exact hmem
        · refine ⟨vs ++ [v], ?_, ?_⟩
          · rw [hk, aGet_aSet, if_pos rfl]
          · rw [hveq]
            simp

theorem recordOutliers_memO (key : String) (cmpVars vars : List String)
    (acc : OutliersL) (k' v' : String) :
    memO (recordOutliers key cmpVars vars acc) k' v' ↔
      memO acc k' v' ∨ (k' = key ∧ v' ∈ vars ∧ v' ∉ cmpVars) := by
  induction vars generalizing acc with
  | nil => simp [recordOutliers]
  | cons v rest ih =>
    simp only [recordOutliers]
    rw [ih]
    by_cases hv : v ∈ cmpVars
    · rw [if_pos hv]
      constructor
      · rintro (hm | ⟨hk, hmem, hnot⟩)
        · left; exact hm
        · right; exact ⟨hk, List.mem_cons_of_mem _ hmem, hnot⟩
      · rintro (hm | ⟨hk, hmem, hnot⟩)
        · left; exact hm
        · rcases List.mem_cons.mp hmem with h1 | h1
          · subst h1
            exact absurd hv hnot
          · right; exact ⟨hk, h1, hnot⟩
    · rw [if_neg hv, addOutlier_memO]
      constructor
      · rintro ((hm | ⟨hk, hveq⟩) | ⟨hk, hmem, hnot⟩)
        · left; exact hm
        · right
          refine ⟨hk, by simp [hveq], ?_⟩
          rw [hveq]
          exact hv
        · right; exact ⟨hk, List.mem_cons_of_mem _ hmem, hnot⟩
      · rintro (hm | ⟨hk, hmem, hnot⟩)
        · left; left; exact hm
        · rcases List.mem_cons.mp hmem with h1 | h1
          · left; right; exact ⟨hk, h1⟩
          · right; exact ⟨hk, h1, hnot⟩

theorem compareLanguages_memO (extract : Js → List String)
    (flatOf : String → List (String × Js)) (key : String) (vars : List String)
    (cs : List String) (acc : OutliersL) (k' v' : String) :
    memO (compareLanguages extract flatOf key vars cs acc) k' v' ↔
      memO acc k' v' ∨ (k' = key ∧ v' ∈ vars ∧ ∃ c ∈ cs, ∃ cv,
        aGet (flatOf c) key = some cv ∧ jsTruthy cv = true ∧ v' ∉ extract cv) := by
  induction cs generalizing acc with
  | nil => simp [compareLanguages]
  | cons c rest ih =>
    cases hcv : aGet (flatOf c) key with
    | none =>
      simp only [compareLanguages, hcv]
      rw [ih]
      constructor
      · rintro (hm | ⟨hk, hmem, c2, hc2, cv, hcv2, htr, hnot⟩)
        · left; exact hm
        · right; exact ⟨hk, hmem, c2, List.mem_cons_of_mem _ hc2, cv, hcv2, htr, hnot⟩
      · rintro (hm | ⟨hk, hmem, c2, hc2, cv, hcv2, htr, hnot⟩)
        · left; exact hm
        · rcases List.mem_cons.mp hc2 with h1 | h1
          · subst h1
            rw [hcv] at hcv2
            cases hcv2
          · right; exact ⟨hk, hmem, c2, h1, cv, hcv2, htr, hnot⟩
    | some cv =>
      simp only [compareLanguages, hcv]
      by_cases htr : jsTruthy cv = true
      · rw [if_pos htr]
        rw [ih, recordOutliers_memO]
        constructor
        · rintro ((hm | ⟨hk, hmem, hnot⟩) | ⟨hk, hmem, c2, hc2, cv2, hcv2, htr2, hnot⟩)
          · left; exact hm
          · right; exact ⟨hk, hmem, c, List.mem_cons_self _ _, cv, hcv, htr, hnot⟩
          · right; exact ⟨hk, hmem, c2, List.mem_cons_of_mem _ hc2, cv2, hcv2, htr2, hnot⟩
        · rintro (hm | ⟨hk, hmem, c2, hc2, cv2, hcv2, htr2, hnot⟩)
          · left; left; exact hm
          · rcases List.mem_cons.mp hc2 with h1 | h1
            · subst h1
              rw [hcv] at hcv2
              cases hcv2
              left; right; exact ⟨hk, hmem, hnot⟩
            · right; exact ⟨hk, hmem, c2, h1, cv2, hcv2, htr2, hnot⟩
      · rw [if_neg htr]
        rw [ih]
        constructor
        · rintro (hm | ⟨hk, hmem, c2, hc2, cv2, hcv2, htr2, hnot⟩)
          · left; exact hm
          · right; exact ⟨hk, hmem, c2, List.mem_cons_of_mem _ hc2, cv2, hcv2, htr2, hnot⟩
        · rintro (hm | ⟨hk, hmem, c2, hc2, cv2, hcv2, htr2, hnot⟩)
          · left; exact hm
          · rcases List.mem_cons.mp hc2 with h1 | h1
            · subst h1
              rw [hcv] at hcv2
              cases hcv2
              exact absurd htr2 htr
            · right; exact ⟨hk, hmem, c2, h1, cv2, hcv2, htr2, hnot⟩

theorem entriesLoop_memO (extract : Js → List String)
    (flatOf : String → List (String × Js)) (languages : List String)
    (entries : List (String × Js)) (acc : OutliersL) (k' v' : String) :
    memO (entriesLoop extract flatOf languages entries acc) k' v' ↔
      memO acc k' v' ∨ ∃ value, (k', value) ∈ entries ∧ v' ∈ extract value ∧
        ∃ c ∈ languages, ∃ cv, aGet (flatOf c) k' = some cv ∧ jsTruthy cv = true ∧
          v' ∉ extract cv := by
  induction entries generalizing acc with
  | nil => simp [entriesLoop]
  | cons e rest ih =>
    obtain ⟨key, value⟩ := e
    simp only [entriesLoop]
    rw [ih, compareLanguages_memO]
    constructor
    · rintro ((hm | ⟨hk, hmem, hc⟩) | ⟨val, hval, hmem, hc⟩)
      · left; exact hm
      · right
        subst hk
        exact ⟨value, List.mem_cons_self _ _, hmem, hc⟩
      · right; exact ⟨val, List.mem_cons_of_mem _ hval, hmem, hc⟩
    · rintro (hm | ⟨val, hval, hmem, hc⟩)
      · left; left; exact hm
      · rcases List.mem_cons.mp hval with h1 | h1
        · have hk : k' = key := congrArg Prod.fst h1
          have hv : val = value := congrArg Prod.snd h1
          subst hk
          subst hv
          left; right
          exact ⟨rfl, hmem, hc⟩
        · right; exact ⟨val, h1, hmem, hc⟩

theorem languagesLoop_memO (extract : Js → List String)
    (flatOf : String → List (String × Js)) (allLanguages : List String)
    (langs : List String) (acc : OutliersL) (k' v' : String) :
    memO (languagesLoop extract flatOf allLanguages langs acc) k' v' ↔
      memO acc k' v' ∨ ∃ l ∈ langs, ∃ value, (k', value) ∈ flatOf l ∧ v' ∈ extract value ∧
        ∃ c ∈ allLanguages, ∃ cv, aGet (flatOf c) k' = some cv ∧ jsTruthy cv = true ∧
          v' ∉ extract cv := by
  induction langs generalizing acc with
  | nil => simp [languagesLoop]
  | cons l rest ih =>
    simp only [languagesLoop]
    rw [ih, entriesLoop_memO]
    constructor
    · rintro ((hm | ⟨val, hval, hmem, hc⟩) | ⟨l2, hl2, val, hval, hmem, hc⟩)
      · left; exact hm
      · right; exact ⟨l, List.mem_cons_self _ _, val, hval, hmem, hc⟩
      · right; exact ⟨l2, List.mem_cons_of_mem _ hl2, val, hval, hmem, hc⟩
    · rintro (hm | ⟨l2, hl2, val, hval, hmem, hc⟩)
      · left; left; exact hm
      · rcases List.mem_cons.mp hl2 with h1 | h1
        · subst h1
          left; right
          exact ⟨val, hval, hmem, hc⟩
        · right; exact ⟨l2, h1, val, hval, hmem, hc⟩

theorem detectLoop_memO (extract : Js → List String) (languages : List String)
    (flatOf : String → List (String × Js)) (key vName : String) :
    memO (detectLoop extract languages flatOf) key vName ↔
      ∃ l ∈ languages, ∃ value, (key, value) ∈ flatOf l ∧ vName ∈ extract value ∧
        ∃ c ∈ languages, ∃ cv, aGet (flatOf c) key = some cv ∧ jsTruthy cv = true ∧
          vName ∉ extract cv := by
  unfold detectLoop
  rw [languagesLoop_memO]
  constructor
  · rintro (hm | hc)
    · exact absurd hm (memO_nil _ _)
    · exact hc
  · exact Or.inr

theorem addOutlier_good (acc : OutliersL) (k v : String)
    (h : ∀ p ∈ acc, p.2 ≠ [] ∧ p.2.Nodup) :
    ∀ p ∈ addOutlier acc k v, p.2 ≠ [] ∧ p.2.Nodup := by
  cases hg : aGet acc k with
  | none =>
    simp only [addOutlier, hg]
    intro p hp
    rcases aSet_mem _ _ _ _ hp with h1 | h1
    · exact h p h1
    · rw [h1]
      simp
  | some vs =>
    simp only [addOutlier, hg]
    by_cases hv : v ∈ vs
    · rw [if_pos hv]
      exact h
    · rw [if_neg hv]
      intro p hp
      rcases aSet_mem _ _ _ _ hp with h1 | h1
      · exact h p h1
      · rw [h1]
        have hvs := h (k, vs) (aGet_mem _ _ _ hg)
        refine ⟨by simp, ?_⟩
        rw [List.nodup_append]
        exact ⟨hvs.2, List.nodup_singleton v,
          fun a ha hav => hv ((List.mem_singleton.mp hav) ▸ ha)⟩

theorem recordOutliers_good (key : String) (cmpVars vars : List String) (acc : OutliersL)
    (h : ∀ p ∈ acc, p.2 ≠ [] ∧ p.2.Nodup) :
    ∀ p ∈ recordOutliers key cmpVars vars acc, p.2 ≠ [] ∧ p.2.Nodup := by
  induction vars generalizing acc with
  | nil => exact h
  | cons v rest ih =>
    simp only [recordOutliers]
    by_cases hv : v ∈ cmpVars
    · rw [if_pos hv]
      exact ih acc h
    · rw [if_neg hv]
      exact ih _ (addOutlier_good acc key v h)

theorem compareLanguages_good (extract : Js → List String)
    (flatOf : String → List (String × Js)) (key : String) (vars cs : List String)
    (acc : OutliersL) (h : ∀ p ∈ acc, p.2 ≠ [] ∧ p.2.Nodup) :
    ∀ p ∈ compareLanguages extract flatOf key vars cs acc, p.2 ≠ [] ∧ p.2.Nodup := by
  induction cs generalizing acc with
  | nil => exact h
  | cons c rest ih =>
    cases hcv : aGet (flatOf c) key with
    | none =>
      simp only [compareLanguages, hcv]
      exact ih acc h
    | some cv =>
      simp only [compareLanguages, hcv]
      by_cases htr : jsTruthy cv = true
      · rw [if_pos htr]
        exact ih _ (recordOutliers_good key (extract cv) vars acc h)
      · rw [if_neg htr]
        exact ih acc h

theorem entriesLoop_good (extract : Js → List String)
    (flatOf : String → List (String × Js)) (languages : List String)
    (entries : List (String × Js)) (acc : OutliersL)
    (h : ∀ p ∈ acc, p.2 ≠ [] ∧ p.2.Nodup) :
    ∀ p ∈ entriesLoop extract flatOf languages entries acc, p.2 ≠ [] ∧ p.2.Nodup := by
  induction entries generalizing acc with
  | nil => exact h
  | cons e rest ih =>
    obtain ⟨key, value⟩ := e
    simp only [entriesLoop]
    exact ih _ (compareLanguages_good extract flatOf key (extract value) languages acc h)

theorem languagesLoop_good (extract : Js → List String)
    (flatOf : String → List (String × Js)) (allLanguages langs : List String)
    (acc : OutliersL) (h : ∀ p ∈ acc, p.2 ≠ [] ∧ p.2.Nodup) :
    ∀ p ∈ languagesLoop extract flatOf allLanguages langs acc, p.2 ≠ [] ∧ p.2.Nodup := by
  induction langs generalizing acc with
  | nil => exact h
  | cons l rest ih =>
    simp only [languagesLoop]
    exact ih _ (entriesLoop_good extract flatOf allLanguages (flatOf l) acc h)

theorem detectLoop_good (extract : Js → List String) (languages : List String)
    (flatOf : String → List (String × Js)) :
    ∀ p ∈ detectLoop extract languages flatOf, p.2 ≠ [] ∧ p.2.Nodup := by
  unfold detectLoop
  exact languagesLoop_good extract flatOf languages languages [] (by simp)

theorem compareLanguages_nilvars (extract : Js → List String)
    (flatOf : String → List (String × Js)) (key : String) (cs : List String)
    (acc : OutliersL) :
    compareLanguages extract flatOf key [] cs acc = acc := by
  induction cs generalizing acc with
  | nil => rfl
  | cons c rest ih =>
    cases hcv : aGet (flatOf c) key with
    | none =>
      simp only [compareLanguages, hcv]
      exact ih acc
    | some cv =>
      simp only [compareLanguages, hcv]
      by_cases htr : jsTruthy cv = true
      · rw [if_pos htr]
        exact ih acc
      · rw [if_neg htr]
        exact ih acc

theorem truthyLookup_eq_none (o : List (String × Js)) (k : String)
    (h : aGet o k = none) : truthyLookup o k = none := by
  simp [truthyLookup, h]

theorem truthyLookup_eq_some (o : List (String × Js)) (k : String) (v : Js)
    (h : aGet o k = some v) :
    truthyLookup o k = if jsTruthy v then some v else none := by
  simp [truthyLookup, h]

theorem compareLanguages_congr (extract : Js → List String)
    (f1 f2 : String → List (String × Js)) (key : String) (vars cs : List String)
    (acc : OutliersL)
    (h : ∀ c ∈ cs, truthyLookup (f1 c) key = truthyLookup (f2 c) key) :
    compareLanguages extract f1 key vars cs acc =
      compareLanguages extract f2 key vars cs acc := by
  induction cs generalizing acc with
  | nil => rfl
  | cons c rest ih =>
    have hc := h c (List.mem_cons_self _ _)
    have hrest : ∀ c' ∈ rest, truthyLookup (f1 c') key = truthyLookup (f2 c') key :=
      fun c' hc' => h c' (List.mem_cons_of_mem _ hc')
    cases h1 : aGet (f1 c) key with
    | none =>
      rw [truthyLookup_eq_none _ _ h1] at hc
      cases h2 : aGet (f2 c) key with
      | none =>
        simp only [compareLanguages, h1, h2]
        exact ih acc hrest
      | some cv2 =>
        rw [truthyLookup_eq_some _ _ _ h2] at hc
        by_cases ht2 : jsTruthy cv2 = true
        · rw [if_pos ht2] at hc
          cases hc
        · simp only [compareLanguages, h1, h2, if_neg ht2]
          exact ih acc hrest
    | some cv1 =>
      rw [truthyLookup_eq_some _ _ _ h1] at hc
      by_cases ht1 : jsTruthy cv1 = true
      · rw [if_pos ht1] at hc
        cases h2 : aGet (f2 c) key with
        | none =>
          rw [truthyLookup_eq_none _ _ h2] at hc
          cases hc
        | some cv2 =>
          rw [truthyLookup_eq_some _ _ _ h2] at hc
          by_cases ht2 : jsTruthy cv2 = true
          · rw [if_pos ht2] at hc
            cases hc
            simp only [compareLanguages, h1, h2, if_pos ht1, if_pos ht2]
            exact ih _ hrest
          · rw [if_neg ht2] at hc
            cases hc
      · rw [if_neg ht1] at hc
        cases h2 : aGet (f2 c) key with
        | none =>
          simp only [compareLanguages, h1, h2, if_neg ht1]
          exact ih acc hrest
        | some cv2 =>
          rw [truthyLookup_eq_some _ _ _ h2] at hc
          by_cases ht2 : jsTruthy cv2 = true
          · rw [if_pos ht2] at hc
            cases hc
          · simp only [compareLanguages, h1, h2, if_neg ht1, if_neg ht2]
            exact ih acc hrest

theorem entriesLoop_congr (extract : Js → List String)
    (f1 f2 : String → List (String × Js)) (langs : List String)
    (entries : List (String × Js)) (acc : OutliersL)
    (h : ∀ c ∈ langs, ∀ k, truthyLookup (f1 c) k = truthyLookup (f2 c) k) :
    entriesLoop extract f1 langs entries acc = entriesLoop extract f2 langs entries acc := by
  induction entries generalizing acc with
  | nil => rfl
  | cons e rest ih =>
    obtain ⟨key, value⟩ := e
    simp only [entriesLoop]
    rw [compareLanguages_congr extract f1 f2 key (extract value) langs acc
      (fun c hc => h c hc key)]
    exact ih _

theorem entriesLoop_erase (extract : Js → List String)
    (flatOf : String → List (String × Js)) (langs : List String) (key : String)
    (entries : List (String × Js)) (acc : OutliersL)
    (hemp : extract (Js.str "") = [])
    (hval : ∀ v, (key, v) ∈ entries → v = Js.str "") :
    entriesLoop extract flatOf langs entries acc =
      entriesLoop extract flatOf langs (eraseKeyAll entries key) acc := by
  induction entries generalizing acc with
  | nil => rfl
  | cons e rest ih =>
    obtain ⟨k0, v0⟩ := e
    by_cases h0 : k0 = key
    · subst h0
      have hv0 : v0 = Js.str "" := hval v0 (List.mem_cons_self _ _)
      subst hv0
      have hdrop : eraseKeyAll ((k0, Js.str "") :: rest) k0 = eraseKeyAll rest k0 := by
        simp [eraseKeyAll]
      rw [hdrop]
      simp only [entriesLoop]
      rw [hemp, compareLanguages_nilvars]
      exact ih acc (fun v hv => hval v (List.mem_cons_of_mem _ hv))
    · have hkeep : eraseKeyAll ((k0, v0) :: rest) key = (k0, v0) :: eraseKeyAll rest key := by
        simp [eraseKeyAll, h0]
      rw [hkeep]
      simp only [entriesLoop]
      exact ih _ (fun v hv => hval v (List.mem_cons_of_mem _ hv))

theorem languagesLoop_erase_empty (extract : Js → List String)
    (flatOf : String → List (String × Js)) (cmp key : String)
    (ls iter : List String) (acc : OutliersL)
    (hemp : extract (Js.str "") = [])
    (hval : ∀ v, (key, v) ∈ flatOf cmp → v = Js.str "") :
    languagesLoop extract (fun l => if l = cmp then eraseKeyAll (flatOf l) key else flatOf l)
        ls iter acc =
      languagesLoop extract flatOf ls iter acc := by
  have htr : ∀ c k2,
      truthyLookup ((fun l => if l = cmp then eraseKeyAll (flatOf l) key else flatOf l) c) k2 =
        truthyLookup (flatOf c) k2 := by
    intro c k2
    by_cases hc : c = cmp
    · subst hc
      show truthyLookup (if c = c then eraseKeyAll (flatOf c) key else flatOf c) k2 =
        truthyLookup (flatOf c) k2
      rw [if_pos rfl]
      by_cases hk : k2 = key
      · subst hk
        rw [truthyLookup_eq_none _ _ (by rw [aGet_eraseKeyAll]; simp)]
        cases h2 : aGet (flatOf c) k2 with
        | none => rw [truthyLookup_eq_none _ _ h2]
        | some v =>
          have hv := hval v (aGet_mem _ _ _ h2)
          rw [truthyLookup_eq_some _ _ _ h2, hv]
          simp [jsTruthy]
      · cases h2 : aGet (flatOf c) k2 with
        | none =>
          rw [truthyLookup_eq_none _ _ h2, truthyLookup_eq_none]
          rw [aGet_eraseKeyAll, if_neg hk]
          exact h2
        | some v =>
          rw [truthyLookup_eq_some _ _ _ h2, truthyLookup_eq_some]
          rw [aGet_eraseKeyAll, if_neg hk]
          exact h2
    · show truthyLookup (if c = cmp then eraseKeyAll (flatOf c) key else flatOf c) k2 =
        truthyLookup (flatOf c) k2
      rw [if_neg hc]
  induction iter generalizing acc with
  | nil => rfl
  | cons l rest ih =>
    simp only [languagesLoop]
    have hswap :
        entriesLoop extract
            (fun l2 => if l2 = cmp then eraseKeyAll (flatOf l2) key else flatOf l2) ls
            (if l = cmp then eraseKeyAll (flatOf l) key else flatOf l) acc =
          entriesLoop extract flatOf ls (flatOf l) acc := by
      rw [entriesLoop_congr extract _ flatOf ls _ acc (fun c _ => htr c)]
      by_cases hl : l = cmp
      · simp only [hl, if_pos rfl]
        exact (entriesLoop_erase extract flatOf ls key (flatOf cmp) acc hemp hval).symm
      · simp only [if_neg hl]
    rw [hswap]
    exact ih _

/-- C1: when the merge processes a virtual file whose namespace (first path
segment) equals the valid (non-null, non-empty) default namespace, the
file's top-level key/value pairs are shallow-merged into the language's
root mapping — a key in both takes the file's value, other keys survive
from either side — and no key named after the namespace is created at the
language root (unless one of the two sides already had it as a message
key). -/
theorem merge_default_namespace_shallow
    (defaultNamespace : Option String) (res : List (String × Js)) (f : DFile)
    (nsPart fnPart langPart : String) (rest : List String)
    (o fs : List (String × Js))
    (hvalid : isValidDefaultNamespaceB defaultNamespace = true)
    (hdns : defaultNamespace = some nsPart)
    (hsplit : jsSplit f.path '/' = nsPart :: fnPart :: rest)
    (hlang : (jsSplit fnPart '.').headD "" = langPart)
    (hdata : f.data = Js.obj fs)
    (hroot : aGet res langPart = some (Js.obj o))
    (hno : (o.map Prod.fst).Nodup) (hnf : (fs.map Prod.fst).Nodup) :
    mergeFile defaultNamespace (isValidDefaultNamespaceB defaultNamespace) res f =
      some (aSet res langPart (Js.obj (jsSpread2 o fs))) ∧
    (∀ k, aGet (jsSpread2 o fs) k = orO (aGet fs k) (aGet o k)) ∧
    (aGet fs nsPart = none → aGet o nsPart = none →
      aGet (jsSpread2 o fs) nsPart = none) := by
  refine ⟨?_, ?_, ?_⟩
  · have hlang2 : (jsSplit fnPart '.').head?.getD "" = langPart := by
      rw [← List.headD_eq_head?]
      exact hlang
    simp only [mergeFile, hsplit]
    rw [if_pos ⟨hvalid, hdns⟩]
    simp [hlang2, hroot, hdata, spreadOpt, spreadFields]
  · intro k
    exact aGet_jsSpread2_nodup o fs k hno hnf
  · intro h1 h2
    rw [aGet_jsSpread2_nodup o fs nsPart hno hnf, h1, h2]
    rfl

/-- C1 witness: merging `common/en.json` = `("hello" ↦ "hi")` with default
namespace `common` into the seeded tree for language `en` yields
`tree.en.hello = "hi"` and no `tree.en.common` entry. -/
theorem merge_default_namespace_shallow_witness :
    isValidDefaultNamespaceB (some "common") = true ∧
    jsSplit "common/en.json" '/' = ["common", "en.json"] ∧
    mergeFile (some "common") (isValidDefaultNamespaceB (some "common"))
        [("en", Js.obj [])] ⟨"common/en.json", Js.obj [("hello", Js.str "hi")]⟩ =
      some (aSet [("en", Js.obj [])] "en"
        (Js.obj (jsSpread2 [] [("hello", Js.str "hi")]))) ∧
    aGet (jsSpread2 [] [("hello", Js.str "hi")]) "hello" =
      orO (aGet [("hello", Js.str "hi")] "hello") (aGet ([] : List (String × Js)) "hello") ∧
    aGet (jsSpread2 [] [("hello", Js.str "hi")]) "common" = none ∧
    mergeTranslations ["en"] [⟨"common/en.json", Js.obj [("hello", Js.str "hi")]⟩]
        (some "common") = some [("en", Js.obj [("hello", Js.str "hi")])] := by
  have h := merge_default_namespace_shallow (some "common") [("en", Js.obj [])]
    ⟨"common/en.json", Js.obj [("hello", Js.str "hi")]⟩ "common" "en.json" "en" []
    [] [("hello", Js.str "hi")] (by decide) rfl (by decide) (by decide) rfl rfl
    (by decide) (by decide)
  exact ⟨by decide, by decide, h.1, h.2.1 "hello", h.2.2 rfl rfl, by rfl⟩

/-- C2: when the merge processes a virtual file whose namespace is not the
default namespace (or there is no valid default namespace), the file's
parsed content is stored whole under `tree[language][namespace]`, replacing
any prior value at that slot and leaving every other key of the language
untouched. -/
theorem merge_other_namespace_whole
    (defaultNamespace : Option String) (res : List (String × Js)) (f : DFile)
    (nsPart fnPart langPart : String) (rest : List String) (o : List (String × Js))
    (hsplit : jsSplit f.path '/' = nsPart :: fnPart :: rest)
    (hlang : (jsSplit fnPart '.').headD "" = langPart)
    (hnd : ¬(isValidDefaultNamespaceB defaultNamespace = true ∧
      defaultNamespace = some nsPart))
    (hroot : aGet res langPart = some (Js.obj o)) :
    mergeFile defaultNamespace (isValidDefaultNamespaceB defaultNamespace) res f =
      some (aSet res langPart (Js.obj (aSet o nsPart f.data))) ∧
    aGet (aSet o nsPart f.data) nsPart = some f.data ∧
    (∀ k, k ≠ nsPart → aGet (aSet o nsPart f.data) k = aGet o k) := by
  refine ⟨?_, ?_, ?_⟩
  · have hlang2 : (jsSplit fnPart '.').head?.getD "" = langPart := by
      rw [← List.headD_eq_head?]
      exact hlang
    simp only [mergeFile, hsplit]
    rw [if_neg hnd]
    simp [hlang2, hroot]
  · rw [aGet_aSet, if_pos rfl]
  · intro k hk
    rw [aGet_aSet, if_neg hk]

/-- C2 witness: `messages/en.json` = `("x" ↦ "y")` with default namespace
`common` yields `tree.en.messages.x = "y"`. -/
theorem merge_other_namespace_whole_witness :
    jsSplit "messages/en.json" '/' = ["messages", "en.json"] ∧
    ¬(isValidDefaultNamespaceB (some "common") = true ∧
      (some "common" : Option String) = some "messages") ∧
    mergeFile (some "common") (isValidDefaultNamespaceB (some "common"))
        [("en", Js.obj [])] ⟨"messages/en.json", Js.obj [("x", Js.str "y")]⟩ =
      some (aSet [("en", Js.obj [])] "en"
        (Js.obj (aSet [] "messages" (Js.obj [("x", Js.str "y")])))) ∧
    aGet (aSet [] "messages" (Js.obj [("x", Js.str "y")])) "messages" =
      some (Js.obj [("x", Js.str "y")]) ∧
    mergeTranslations ["en"] [⟨"messages/en.json", Js.obj [("x", Js.str "y")]⟩]
        (some "common") =
      some [("en", Js.obj [("messages", Js.obj [("x", Js.str "y")])])] ∧
    aGet [("x", Js.str "y")] "x" = some (Js.str "y") := by
  have h := merge_other_namespace_whole (some "common") [("en", Js.obj [])]
    ⟨"messages/en.json", Js.obj [("x", Js.str "y")]⟩ "messages" "en.json" "en" []
    [] (by decide) (by decide) (by decide) rfl
  exact ⟨by decide, by decide, h.1, h.2.1, by rfl, by rfl⟩

/-- C5 counterexample: the claim says a file whose language was not
requested never crashes the merge "in both the default-namespace and the
non-default-namespace branch"; but in the non-default-namespace branch
`resources[language][namespace] = …` throws a TypeError because
`resources[language]` is undefined: merging `messages/de.json` into a tree
seeded only for `en` crashes (`none`). -/
theorem merge_unknown_language_crash_cex :
    mergeTranslations ["en"] [⟨"messages/de.json", Js.obj [("x", Js.str "y")]⟩]
      (some "common") = none := by rfl

/-- C5 (amended): a virtual file whose language tag is not among the
requested languages does not crash the merge only in the default-namespace
branch, where spreading the undefined `resources[language]` yields an empty
object and the unknown language is added as a new top-level entry of the
tree; in the non-default-namespace branch the merge throws a TypeError
(`resources[language]` is undefined). -/
theorem merge_unknown_language_default_branch
    (defaultNamespace : Option String) (res : List (String × Js)) (f : DFile)
    (nsPart fnPart langPart : String) (rest : List String) (fs : List (String × Js))
    (hvalid : isValidDefaultNamespaceB defaultNamespace = true)
    (hdns : defaultNamespace = some nsPart)
    (hsplit : jsSplit f.path '/' = nsPart :: fnPart :: rest)
    (hlang : (jsSplit fnPart '.').headD "" = langPart)
    (hdata : f.data = Js.obj fs)
    (hmiss : aGet res langPart = none) :
    mergeFile defaultNamespace (isValidDefaultNamespaceB defaultNamespace) res f =
      some (aSet res langPart (Js.obj (jsSpread2 [] fs))) ∧
    aGet (aSet res langPart (Js.obj (jsSpread2 [] fs))) langPart =
      some (Js.obj (jsSpread2 [] fs)) ∧
    (∀ nsPart2 fnPart2 rest2,
      jsSplit f.path '/' = nsPart2 :: fnPart2 :: rest2 →
      ¬(isValidDefaultNamespaceB defaultNamespace = true ∧
        defaultNamespace = some nsPart2) →
      aGet res ((jsSplit fnPart2 '.').headD "") = none →
      mergeFile defaultNamespace (isValidDefaultNamespaceB defaultNamespace) res f =
        none) := by
  refine ⟨?_, ?_, ?_⟩
  · have hlang2 : (jsSplit fnPart '.').head?.getD "" = langPart := by
      rw [← List.headD_eq_head?]
      exact hlang
    simp only [mergeFile, hsplit]
    rw [if_pos ⟨hvalid, hdns⟩]
    simp [hlang2, hmiss, hdata, spreadOpt, spreadFields]
  · rw [aGet_aSet, if_pos rfl]
  · intro nsPart2 fnPart2 rest2 hsplit2 hnd2 hmiss2
    have hlang2 : aGet res ((jsSplit fnPart2 '.').head?.getD "") = none := by
      rw [← List.headD_eq_head?]
      exact hmiss2
    simp only [mergeFile, hsplit2]
    rw [if_neg hnd2]
    simp [hlang2]

/-- C5 witness: `common/de.json` merged into a tree requested for `en`
only succeeds in the default-namespace branch and adds `de` as a new
top-level entry. -/
theorem merge_unknown_language_default_branch_witness :
    isValidDefaultNamespaceB (some "common") = true ∧
    jsSplit "common/de.json" '/' = ["common", "de.json"] ∧
    aGet [("en", Js.obj [])] "de" = none ∧
    mergeFile (some "common") (isValidDefaultNamespaceB (some "common"))
        [("en", Js.obj [])] ⟨"common/de.json", Js.obj [("x", Js.str "y")]⟩ =
      some (aSet [("en", Js.obj [])] "de" (Js.obj (jsSpread2 [] [("x", Js.str "y")]))) ∧
    aGet (aSet [("en", Js.obj [])] "de" (Js.obj (jsSpread2 [] [("x", Js.str "y")]))) "de" =
      some (Js.obj (jsSpread2 [] [("x", Js.str "y")])) ∧
    mergeTranslations ["en"] [⟨"common/de.json", Js.obj [("x", Js.str "y")]⟩]
        (some "common") =
      some [("en", Js.obj []), ("de", Js.obj [("x", Js.str "y")])] := by
  have h := merge_unknown_language_default_branch (some "common") [("en", Js.obj [])]
    ⟨"common/de.json", Js.obj [("x", Js.str "y")]⟩ "common" "de.json" "de" []
    [("x", Js.str "y")] (by decide) rfl (by decide) (by decide) rfl rfl
  exact ⟨by decide, by decide, rfl, h.1, h.2.1, by rfl⟩

theorem validateLanguages_eq (languages : List String) (data emb : Js) (els : List Js)
    (tags : List (Option Js))
    (hemb : jsPropOpt data "_embedded" = some emb)
    (hlangs : jsPropOpt emb "languages" = some (Js.arr els))
    (htags : els.mapM tagOfElem = Except.ok tags) :
    validateLanguages languages data =
      if languages.all (fun language => tagsInclude tags language) then Except.ok ()
      else Except.error (JsError.thrown
        ("Failed trying to fetch non-existing language. " ++ stringify data)) := by
  simp only [validateLanguages, hemb, hlangs, htags]

/-- C6 counterexample: the claim says the validation error names the
offending requested tags; but requesting `["en","xx"]` against a catalogue
knowing `en`/`de` throws an `Error` whose message appends the
JSON-serialized server catalogue — it contains the known tags (`en`, `de`)
and never mentions the offending `xx`. -/
theorem validate_names_known_not_offending_cex :
    validateLanguages ["en", "xx"] exC6data = Except.error (JsError.thrown exC6msg) ∧
    strHas exC6msg "xx" = false ∧
    strHas exC6msg "en" = true ∧ strHas exC6msg "de" = true := by
  have hf : jsFuel exC6data = 7 := by
    simp [exC6data, jsFuel, jsFuelFields, jsFuelList]
  have hs : stringify exC6data =
      "\x7b\"_embedded\":\x7b\"languages\":[\x7b\"tag\":\"en\"\x7d,\x7b\"tag\":\"de\"\x7d]\x7d\x7d" := by
    rw [stringify, hf]
    rfl
  refine ⟨?_, by decide, by decide, by decide⟩
  rw [validateLanguages_eq ["en", "xx"] exC6data
    (Js.obj [("languages", Js.arr [Js.obj [("tag", Js.str "en")], Js.obj [("tag", Js.str "de")]])])
    [Js.obj [("tag", Js.str "en")], Js.obj [("tag", Js.str "de")]]
    [some (Js.str "en"), some (Js.str "de")] rfl rfl rfl]
  have hall : (["en", "xx"].all
      (fun language => tagsInclude [some (Js.str "en"), some (Js.str "de")] language)) = false := by
    decide
  rw [hall, if_neg (by simp), hs]
  rfl

/-- C6 (amended): for a catalogue response of the expected shape, language
validation succeeds exactly when every requested tag is among the server's
known tags; otherwise it throws an `Error` whose message is the fixed text
"Failed trying to fetch non-existing language. " followed by the
JSON-serialized server response — which names the server's known languages,
not the offending requested tags. -/
theorem validate_languages_outcome (languages : List String) (data emb : Js)
    (els : List Js) (tags : List (Option Js))
    (hemb : jsPropOpt data "_embedded" = some emb)
    (hlangs : jsPropOpt emb "languages" = some (Js.arr els))
    (htags : els.mapM tagOfElem = Except.ok tags) :
    (languages.all (fun language => tagsInclude tags language) = true →
      validateLanguages languages data = Except.ok ()) ∧
    (languages.all (fun language => tagsInclude tags language) = false →
      validateLanguages languages data = Except.error (JsError.thrown
        ("Failed trying to fetch non-existing language. " ++ stringify data))) := by
  rw [validateLanguages_eq languages data emb els tags hemb hlangs htags]
  constructor
  · intro hall
    rw [hall, if_pos rfl]
  · intro hall
    rw [hall, if_neg (by simp)]

/-- C6 witness: requesting `["en"]` against known `en`/`de` succeeds;
requesting `["en","xx"]` fails with the thrown `Error`. -/
theorem validate_languages_outcome_witness :
    jsPropOpt exC6data "_embedded" =
      some (Js.obj [("languages",
        Js.arr [Js.obj [("tag", Js.str "en")], Js.obj [("tag", Js.str "de")]])]) ∧
    (["en"].all
      (fun language => tagsInclude [some (Js.str "en"), some (Js.str "de")] language)) = true ∧
    validateLanguages ["en"] exC6data = Except.ok () ∧
    (["en", "xx"].all
      (fun language => tagsInclude [some (Js.str "en"), some (Js.str "de")] language)) = false ∧
    validateLanguages ["en", "xx"] exC6data = Except.error (JsError.thrown
      ("Failed trying to fetch non-existing language. " ++ stringify exC6data)) := by
  have h1 := validate_languages_outcome ["en"] exC6data
    (Js.obj [("languages", Js.arr [Js.obj [("tag", Js.str "en")], Js.obj [("tag", Js.str "de")]])])
    [Js.obj [("tag", Js.str "en")], Js.obj [("tag", Js.str "de")]]
    [some (Js.str "en"), some (Js.str "de")] rfl rfl rfl
  have h2 := validate_languages_outcome ["en", "xx"] exC6data
    (Js.obj [("languages", Js.arr [Js.obj [("tag", Js.str "en")], Js.obj [("tag", Js.str "de")]])])
    [Js.obj [("tag", Js.str "en")], Js.obj [("tag", Js.str "de")]]
    [some (Js.str "en"), some (Js.str "de")] rfl rfl rfl
  exact ⟨rfl, by decide, h1.1 (by decide), by decide, h2.2 (by decide)⟩

theorem jsJoin_multi_filter (f v : String) (vs : List String) :
    f ++ "=" ++ jsJoin ("&" ++ f ++ "=") (v :: vs) =
      jsJoin "&" ((v :: vs).map (fun w => f ++ "=" ++ w)) := by
  induction vs generalizing v with
  | nil => simp [jsJoin]
  | cons w rest ih =>
    have expand : jsJoin "&" (List.map (fun x => f ++ "=" ++ x) (v :: w :: rest)) =
        (f ++ "=" ++ v) ++ "&" ++ jsJoin "&" (List.map (fun x => f ++ "=" ++ x) (w :: rest)) := by
      simp only [List.map_cons, jsJoin]
    rw [expand, ← ih w]
    simp only [jsJoin]
    simp only [← String.append_assoc]

/-- C9: for a non-empty namespace list the export query string carries the
namespace filter as a repeated key — one `filterNamespace=value` occurrence
per value, joined by `&`, never comma-joined — and the language filter as a
single comma-joined `languages=v1,v2` parameter (omitted entirely when the
language list is empty); concretely,
`parseQueryParams ["en","de"] ["a","b"]` is
`"?languages=en,de&filterNamespace=a&filterNamespace=b"`. -/
theorem query_serialization (languages : List String) (n : String) (ns : List String) :
    parseQueryParams languages (n :: ns) =
      (if languages.isEmpty then "?"
       else "?" ++ "languages=" ++ jsJoin "," languages ++ "&") ++
        jsJoin "&" ((n :: ns).map (fun v => "filterNamespace=" ++ v)) ∧
    parseQueryParams ["en", "de"] ["a", "b"] =
      "?languages=en,de&filterNamespace=a&filterNamespace=b" := by
  refine ⟨?_, by rfl⟩
  have hm : (fun v => "filterNamespace=" ++ v) = (fun v => "filterNamespace" ++ "=" ++ v) := by
    funext v
    rfl
  rw [hm, ← jsJoin_multi_filter "filterNamespace" n ns]
  cases languages with
  | nil =>
    simp [parseQueryParams, parseLanguages, parseMultiValueFilter, ← String.append_assoc]
  | cons l ls =>
    simp [parseQueryParams, parseLanguages, parseMultiValueFilter, ← String.append_assoc]

/-- C8: when the ICU parser throws on a message, `extractVariableNames`
catches the error, reports it as three non-fatal `logError` diagnostics
(header, the message, the error), and contributes the empty variable set;
and whether the consistency check completes never depends on the parser
capability at all (its only failure mode is the missing-language
TypeError), so a parse failure never aborts the run. -/
theorem extract_parse_failure_diagnostic (parse : Js → Except String (List IcuNode))
    (message : Js) (e : String) (h : parse message = Except.error e) :
    extractVariableNames parse message =
      ([], [LogEntry.error "Caught an error while trying to parse an ICU message." [],
            LogEntry.error "Message:" [LogArg.js message],
            LogEntry.error "Error:" [LogArg.errStr e]]) ∧
    (∀ parse2 languages resources,
      (detectInconsistentVariableNames parse languages resources).isSome =
        (detectInconsistentVariableNames parse2 languages resources).isSome) := by
  constructor
  · simp [extractVariableNames, h]
  · intro parse2 languages resources
    simp only [detectInconsistentVariableNames]
    by_cases hc : (languages.all fun l =>
        match aGet resources l with
        | none => false
        | some Js.null => false
        | some _ => true) = true
    · rw [if_pos hc, if_pos hc]
      rfl
    · rw [if_neg hc, if_neg hc]

/-- C8 witness: the malformed message `"Hello \x7bname"` fails to parse,
yields the empty variable set plus the three diagnostics, and the check's
completion is unchanged by swapping in a parser that always fails. -/
theorem extract_parse_failure_diagnostic_witness :
    parseSimple (Js.str "Hello \x7bname") = Except.error "Malformed argument." ∧
    extractVariableNames parseSimple (Js.str "Hello \x7bname") =
      ([], [LogEntry.error "Caught an error while trying to parse an ICU message." [],
            LogEntry.error "Message:" [LogArg.js (Js.str "Hello \x7bname")],
            LogEntry.error "Error:" [LogArg.errStr "Malformed argument."]]) ∧
    (detectInconsistentVariableNames parseSimple ["en"]
        [("en", Js.obj [("a", Js.str "Hello \x7bname")])]).isSome =
      (detectInconsistentVariableNames (fun _ => Except.error "boom") ["en"]
        [("en", Js.obj [("a", Js.str "Hello \x7bname")])]).isSome := by
  have h := extract_parse_failure_diagnostic parseSimple (Js.str "Hello \x7bname")
    "Malformed argument." rfl
  exact ⟨rfl, h.1, h.2 (fun _ => Except.error "boom") ["en"]
    [("en", Js.obj [("a", Js.str "Hello \x7bname")])]⟩

/-- C3: a variable is recorded (deduplicated) under a flattened key exactly
when some language's message at that key references it while some
comparison language that also has a truthy value at that key misses it; a
comparison language with no value at the key is skipped and never causes an
outlier (the right-hand side requires `aGet … = some cv` with `cv` truthy);
recorded entries are never empty and are duplicate-free. Concretely, for
`en.greet` = "Hello \x7bname\x7d" vs `de.greet` = "Hallo" the loop records
`name` under `greet`, and with `de` missing `greet` entirely it records
nothing. -/
theorem detect_outlier_membership (extract : Js → List String) (ls : List String)
    (flatOf : String → List (String × Js)) (key vName : String) :
    (memO (detectLoop extract ls flatOf) key vName ↔
      ∃ l ∈ ls, ∃ value, (key, value) ∈ flatOf l ∧ vName ∈ extract value ∧
        ∃ c ∈ ls, ∃ cv, aGet (flatOf c) key = some cv ∧ jsTruthy cv = true ∧
          vName ∉ extract cv) ∧
    (∀ k vs, aGet (detectLoop extract ls flatOf) k = some vs → vs ≠ [] ∧ vs.Nodup) ∧
    detectLoop extractSimpleNames ["en", "de"] exC3flat = [("greet", ["name"])] ∧
    detectLoop extractSimpleNames ["en", "de"] exC3flatMissing = [] := by
  refine ⟨detectLoop_memO extract ls flatOf key vName, ?_, by rfl, by rfl⟩
  intro k vs hget
  exact detectLoop_good extract ls flatOf (k, vs) (aGet_mem _ _ _ hget)

/-- C4 counterexample: the claim says the consistency check returns the
Outliers mapping; on the `en`/`de` `greet` example the outliers map is the
non-empty `greet ↦ [name]`, yet the function's return value is `undefined`
(`ret = none`) — the mapping only appears inside the logged summary. -/
theorem detect_returns_undefined_cex :
    detectInconsistentVariableNames parseSimple ["en", "de"] exC4res =
      some { ret := none,
             log := [LogEntry.info
               "Found 1 keys that have outlier variables in one or more languages:"
               [LogArg.outliers [("greet", ["name"])]]] } ∧
    (detectInconsistentVariableNames parseSimple ["en", "de"] exC4res).map
        DetectResult.ret ≠ some (some [("greet", ["name"])]) := by
  refine ⟨by rfl, ?_⟩
  have h1 : (detectInconsistentVariableNames parseSimple ["en", "de"] exC4res).map
      DetectResult.ret = some none := by rfl
  rw [h1]
  simp

/-- C4 (amended): the consistency check computes the outliers mapping
(every entry of which holds at least one inconsistent variable for its
fully-qualified flattened key) and, when the mapping is non-empty, reports
it via a single logged summary naming the count of affected keys; the
function itself returns `undefined`, not the mapping. -/
theorem detect_logs_outliers (parse : Js → Except String (List IcuNode))
    (languages : List String) (resources : List (String × Js)) (r : DetectResult)
    (h : detectInconsistentVariableNames parse languages resources = some r) :
    r.ret = none ∧
    (detectLoop (extractNames parse) languages (flatOfFn resources) = [] → r.log = []) ∧
    (detectLoop (extractNames parse) languages (flatOfFn resources) ≠ [] →
      r.log = [LogEntry.info
        ("Found " ++
          toString (detectLoop (extractNames parse) languages (flatOfFn resources)).length ++
          " keys that have outlier variables in one or more languages:")
        [LogArg.outliers (detectLoop (extractNames parse) languages (flatOfFn resources))]]) ∧
    (∀ p ∈ detectLoop (extractNames parse) languages (flatOfFn resources), p.2 ≠ []) := by
  simp only [detectInconsistentVariableNames] at h
  by_cases hc : (languages.all fun l =>
      match aGet resources l with
      | none => false
      | some Js.null => false
      | some _ => true) = true
  · rw [if_pos hc] at h
    cases h
    refine ⟨rfl, ?_, ?_, ?_⟩
    · intro hnil
      simp [hnil]
    · intro hne
      rw [if_neg (by simpa [List.length_eq_zero] using hne)]
    · intro p hp
      exact (detectLoop_good _ _ _ p hp).1
  · rw [if_neg hc] at h
    cases h

/-- C4 witness: on the `en`/`de` `greet` example the check completes with
`ret = undefined`, a non-empty computed outliers map, and the single logged
summary carrying it. -/
theorem detect_logs_outliers_witness :
    detectInconsistentVariableNames parseSimple ["en", "de"] exC4res =
      some ⟨none, [LogEntry.info
        "Found 1 keys that have outlier variables in one or more languages:"
        [LogArg.outliers [("greet", ["name"])]]]⟩ ∧
    detectLoop (extractNames parseSimple) ["en", "de"] (flatOfFn exC4res) =
      [("greet", ["name"])] ∧
    (⟨none, [LogEntry.info
        "Found 1 keys that have outlier variables in one or more languages:"
        [LogArg.outliers [("greet", ["name"])]]]⟩ : DetectResult).ret = none ∧
    (⟨none, [LogEntry.info
        "Found 1 keys that have outlier variables in one or more languages:"
        [LogArg.outliers [("greet", ["name"])]]]⟩ : DetectResult).log =
      [LogEntry.info
        ("Found " ++
          toString (detectLoop (extractNames parseSimple) ["en", "de"]
            (flatOfFn exC4res)).length ++
          " keys that have outlier variables in one or more languages:")
        [LogArg.outliers (detectLoop (extractNames parseSimple) ["en", "de"]
          (flatOfFn exC4res))]] := by
  have h := detect_logs_outliers parseSimple ["en", "de"] exC4res
    ⟨none, [LogEntry.info
      "Found 1 keys that have outlier variables in one or more languages:"
      [LogArg.outliers [("greet", ["name"])]]]⟩ rfl
  exact ⟨rfl, by rfl, h.1, h.2.2.1 (by decide)⟩

/-- C10: a comparison language whose flat value at a key is the empty
string is treated exactly like a language missing the key — removing the
key from that language's flat map leaves the computed outliers unchanged
(for any extractor with no variables in the empty message, e.g. the ICU
parser, which parses `""` to an empty AST) — so no outlier is ever recorded
against a comparison language with an empty-string translation. -/
theorem detect_empty_string_untranslated (extract : Js → List String)
    (ls : List String) (flatOf : String → List (String × Js)) (cmp key : String)
    (hemp : extract (Js.str "") = [])
    (hval : ∀ v, (key, v) ∈ flatOf cmp → v = Js.str "") :
    detectLoop extract ls
        (fun l => if l = cmp then eraseKeyAll (flatOf l) key else flatOf l) =
      detectLoop extract ls flatOf := by
  unfold detectLoop
  exact languagesLoop_erase_empty extract flatOf cmp key ls ls [] hemp hval

/-- C10 witness: with `en.greet` = "Hello \x7bname\x7d" and `de.greet` =
`""`, erasing `greet` from `de` leaves the outliers unchanged, and they are
empty — the empty string is skipped, not flagged. -/
theorem detect_empty_string_untranslated_witness :
    extractSimpleNames (Js.str "") = [] ∧
    exC10flat "de" = [("greet", Js.str "")] ∧
    detectLoop extractSimpleNames ["en", "de"]
        (fun l => if l = "de" then eraseKeyAll (exC10flat l) "greet" else exC10flat l) =
      detectLoop extractSimpleNames ["en", "de"] exC10flat ∧
    detectLoop extractSimpleNames ["en", "de"] exC10flat = [] := by
  refine ⟨by rfl, by rfl, ?_, by rfl⟩
  apply detect_empty_string_untranslated extractSimpleNames ["en", "de"] exC10flat "de" "greet" rfl
  intro v hv
  simp only [exC10flat] at hv
  simp at hv
  exact hv

/-- C7: the pipeline always visits its stages in order — the catalogue
fetch (for validation) happens first; the export is fetched only after
validation succeeded; the artifact write happens only when every stage
succeeded, and then it writes the whole merged resource tree; any failure
(catalogue fetch, validation, export fetch, merge or consistency-check
TypeError) ends the run with an error and without a write. -/
theorem generate_pipeline_stages (langFetch : Except String Js)
    (exportFetch : Except String (List DFile))
    (parse : Js → Except String (List IcuNode))
    (languages : List String) (defaultNamespace : Option String) :
    (∃ e, generateTolgeeTranslations langFetch exportFetch parse languages defaultNamespace =
      (Except.error e, [Effect.fetchLanguages])) ∨
    (∃ e data, langFetch = Except.ok data ∧
      validateLanguages languages data = Except.ok () ∧
      generateTolgeeTranslations langFetch exportFetch parse languages defaultNamespace =
        (Except.error e, [Effect.fetchLanguages, Effect.fetchExport])) ∨
    (∃ data files resources, langFetch = Except.ok data ∧
      validateLanguages languages data = Except.ok () ∧
      exportFetch = Except.ok files ∧
      mergeTranslations languages files defaultNamespace = some resources ∧
      generateTolgeeTranslations langFetch exportFetch parse languages defaultNamespace =
        (Except.ok (), [Effect.fetchLanguages, Effect.fetchExport, Effect.write resources])) := by
  cases hl : langFetch with
  | error e =>
    left
    exact ⟨JsError.thrown e, by simp only [generateTolgeeTranslations, hl]⟩
  | ok data =>
    cases hv : validateLanguages languages data with
    | error err =>
      left
      exact ⟨err, by simp only [generateTolgeeTranslations, hl, hv]⟩
    | ok u =>
      cases u
      cases he : exportFetch with
      | error e2 =>
        right; left
        exact ⟨JsError.thrown e2, data, rfl, hv,
          by simp only [generateTolgeeTranslations, hl, hv, he]⟩
      | ok files =>
        cases hm : mergeTranslations languages files defaultNamespace with
        | none =>
          right; left
          exact ⟨JsError.typeError, data, rfl, hv,
            by simp only [generateTolgeeTranslations, hl, hv, he, hm]⟩
        | some resources =>
          cases hd : detectInconsistentVariableNames parse languages resources with
          | none =>
            right; left
            exact ⟨JsError.typeError, data, rfl, hv,
              by simp only [generateTolgeeTranslations, hl, hv, he, hm, hd]⟩
          | some r =>
            right; right
            exact ⟨data, files, resources, rfl, hv, rfl, hm,
              by simp only [generateTolgeeTranslations, hl, hv, he, hm, hd]⟩
